import Mathlib

/-!
Verification of `src/Simulator.c` (deterministic finite-state simulator).

The development shallowly embeds the C source: C strings become `List Char`
or `String` (no interior NUL bytes), C `int` index arithmetic becomes `Int`
with the sentinel `-1` kept as in the source, fixed-capacity C arrays become
lists whose length plays the role of the associated counter field
(`statesNum`, `transitionsNum`), and the `FILE *` stream consumed by
`GetLine` becomes an explicit record of the remaining characters together
with the C end-of-file indicator.  Each definition is named after the C
function it models and follows its control flow line by line.

Capacity limits of the source (`MAX_LINE_LENGTH`, `MAX_STATES`,
`MAX_SYMBOLS`) are assumed respected; the embedding does not model the
silent overflow past them.
-/

set_option autoImplicit false

/-- Whitespace test matching C `isspace` in the default locale, which is what
the `%s` conversion of `sscanf` skips and stops at: space, horizontal tab,
line feed, vertical tab, form feed, carriage return. -/
def CIsSpace (c : Char) : Bool :=
  c == ' ' || c == '\t' || c == '\n' || c == '\x0b' || c == '\x0c' || c == '\r'

/-- Model of `sscanf(str, "%s", word)` (a single conversion): skip leading
whitespace, then read the maximal run of non-whitespace characters into
`word`.  `none` models a return value different from 1 (nothing assigned,
the input was empty or all whitespace). -/
def ScanWord (s : List Char) : Option (List Char) :=
  let r := s.dropWhile CIsSpace
  if r.isEmpty then none
  else some (r.takeWhile (fun c => !CIsSpace c))

/-- Model of `ReadWord` (src/Simulator.c lines 96-114).  It reads one token
with `sscanf "%s"` and then advances the cursor over the original string:
first a loop skipping characters that are neither `' '` nor the terminator,
then a loop skipping `' '` characters.  The advance loops are transcribed
exactly as written in the source: they test only for the plain space
character, and they start from the beginning of the string without first
skipping leading whitespace.  Returns the word and the advanced cursor, or
`none` when no token could be read. -/
def ReadWord (s : List Char) : Option (List Char × List Char) :=
  match ScanWord s with
  | none => none
  | some w => some (w, (s.dropWhile (fun c => c != ' ')).dropWhile (fun c => c == ' '))

/-- Iterating `ReadWord` to exhaustion, with explicit fuel bounding the
loop.  Whenever `ReadWord` returns a word it has consumed at least one
character of the cursor (`ReadWord_rest_lt` below), so fuel equal to the
length of the line always suffices and the fuel-zero fallback is never
reached from `WordsOf`. -/
def WordsOfAux : Nat → List Char → List (List Char)
  | 0, _ => []
  | fuel + 1, s =>
    match ReadWord s with
    | none => []
    | some wr => wr.1 :: WordsOfAux fuel wr.2

/-- The full token sequence a caller obtains by iterating `ReadWord` on a
line, as the loader loops of `LoadAutomaton` do. -/
def WordsOf (s : List Char) : List (List Char) := WordsOfAux s.length s

/-- String-level wrapper of `WordsOf`, used where the C loader reads tokens
from a line into freshly copied buffers. -/
def tokenizeS (s : String) : List String :=
  (WordsOf s.toList).map (fun w => String.mk w)

/-- Whitespace-delimited tokens of a line in the sense of repeated `sscanf`
`%s` conversions sharing one cursor, with fuel as in `WordsOfAux`.  This is
the tokenisation performed by `sscanf(line, "%s %s %s", ...)` on the
transition lines, which (unlike `ReadWord`) advances past the token it just
read. -/
def ScanTokensAux : Nat → List Char → List (List Char)
  | 0, _ => []
  | fuel + 1, s =>
    match ScanWord s with
    | none => []
    | some w => w :: ScanTokensAux fuel ((s.dropWhile CIsSpace).dropWhile (fun c => !CIsSpace c))

/-- All `%s` tokens of a line, left to right. -/
def ScanTokens (s : List Char) : List (List Char) := ScanTokensAux s.length s

/-- Model of `sscanf(transitionLine, "%s %s %s", from, symb, to)`
(src/Simulator.c line 231).  The C code ignores the `sscanf` return value;
when the line holds fewer than three tokens the corresponding C buffers stay
uninitialized (indeterminate).  The embedding uses `""` for such a missing
token; every theorem below that depends on a transition line supplies lines
with at least three tokens, so the choice of default is never load-bearing. -/
def scanf3 (line : String) : String × String × String :=
  let ts := (ScanTokens line.toList).map (fun w => String.mk w)
  (ts.getD 0 "", ts.getD 1 "", ts.getD 2 "")

/-- A C text stream as `GetLine` sees it: the characters not yet consumed and
the stream's end-of-file indicator. -/
structure CStream where
  remaining : List Char
  eofFlag : Bool
deriving DecidableEq

/-- Model of `fgets(line, MAX_LINE_LENGTH, f)` for lines shorter than the
buffer: if the end-of-file indicator is set, fail; if nothing remains, set
the indicator and fail; otherwise read up to and including the first line
feed, or, when no line feed remains, read everything left and set the
end-of-file indicator (per C11, `fgetc` sets the indicator when it meets end
of file, which happens while reading a final line that has no terminator). -/
def fgetsModel (st : CStream) : Option (List Char) × CStream :=
  if st.eofFlag then (none, st)
  else if st.remaining.isEmpty then (none, ⟨[], true⟩)
  else
    match st.remaining.findIdx? (fun c => c == '\n') with
    | some i => (some (st.remaining.take (i + 1)), ⟨st.remaining.drop (i + 1), false⟩)
    | none => (some st.remaining, ⟨[], true⟩)

/-- The do-while loop of `GetLine` (src/Simulator.c lines 43-50): call
`fgets`, and repeat while the end-of-file indicator is clear and the line is
empty, a bare line feed, or a comment line.  Fuel bounds the loop; each
repetition consumes at least one remaining character, so fuel equal to the
remaining length suffices and the fuel-zero fallback is never reached from
`GetLine`. -/
def GetLineLoopAux : Nat → CStream → Option (List Char) × CStream
  | fuel, st =>
    match fgetsModel st with
    | (none, st2) => (none, st2)
    | (some line, st2) =>
      if !st2.eofFlag && (line.isEmpty || line.headD ' ' == '\n' || line.headD ' ' == '#') then
        match fuel with
        | 0 => (some line, st2)
        | f + 1 => GetLineLoopAux f st2
      else (some line, st2)

/-- Model of `GetLine` (src/Simulator.c lines 36-64): run the read-and-skip
loop, then return `NULL` when the end-of-file indicator is set, return
`NULL` when the line holds at most one character (the `nextlinePos <= 0`
guard), and otherwise strip a trailing line feed.  The returned stream is
the state of the `FILE *` after the call; the C static buffer is modelled by
returning the line by value. -/
def GetLine (st : CStream) : Option (List Char) × CStream :=
  match GetLineLoopAux st.remaining.length st with
  | (none, st2) => (none, st2)
  | (some line, st2) =>
    if st2.eofFlag then (none, st2)
    else if line.length ≤ 1 then (none, st2)
    else if line.getD (line.length - 1) ' ' == '\n' then
      (some (line.take (line.length - 1)), st2)
    else (some line, st2)

/-- The `Automaton` struct (src/Simulator.c lines 10-31).  The counter
fields `statesNum` and `transitionsNum` are the lengths of `statesNames` and
`transitions`; the fixed arrays are lists of that length; `finishState` is
the 0/1 flag array indexed like `statesNames`; `transitionTable` is the
`statesNum` by `transitionsNum` table holding a state index or the sentinel
`-1`. -/
structure Automaton where
  statesNames : List String
  finishState : List Nat
  startStateIndex : Int
  transitions : List Char
  transitionTable : List (List Int)
deriving DecidableEq

/-- The linear search shared by `StateToIdx` and `TransitionToIdx`: index of
the first element equal to `x`, or `-1` when `x` does not occur. -/
def cIndexOf {α : Type} [DecidableEq α] : List α → α → Int
  | [], _ => -1
  | y :: ys, x =>
    if x = y then 0
    else
      let r := cIndexOf ys x
      if r = -1 then -1 else r + 1

/-- Model of `StateToIdx` (src/Simulator.c lines 68-78): index of the first
state whose name compares equal to `state`, or `-1`. -/
def StateToIdx (a : Automaton) (state : String) : Int :=
  cIndexOf a.statesNames state

/-- Model of `TransitionToIdx` (src/Simulator.c lines 82-92): index of the
first alphabet symbol equal to `transition`, or `-1`. -/
def TransitionToIdx (a : Automaton) (transition : Char) : Int :=
  cIndexOf a.transitions transition

/-- Reading `a->transitionTable[st][sym]`.  The C code only performs this
access with indices inside the table; out-of-range indices (which would be
undefined behaviour in C) are given the defaults `[]` and `-1` here, and no
theorem depends on them. -/
def tableGet (a : Automaton) (st sym : Int) : Int :=
  (a.transitionTable.getD st.toNat []).getD sym.toNat (-1)

/-- Writing `a->transitionTable[frm][sym] = v`. -/
def setTable (a : Automaton) (frm sym v : Int) : Automaton :=
  { a with
    transitionTable :=
      a.transitionTable.set frm.toNat
        ((a.transitionTable.getD frm.toNat []).set sym.toNat v) }

/-- The truth test `a->finishState[st]` of src/Simulator.c line 328. -/
def isFinal (a : Automaton) (st : Int) : Bool :=
  a.finishState.getD st.toNat 0 != 0

/-- The simulation loop of `ProcessString` (src/Simulator.c lines 310-331):
starting from `currentState`, consume the string one character at a time; a
table entry of `-1` or at least `statesNum` ends the run with result 1;
when the string is exhausted the result is 0 if the current state is a
finish state and 1 otherwise. -/
def RunLoop (a : Automaton) : List Char → Int → Nat
  | [], currentState => if isFinal a currentState then 0 else 1
  | c :: rest, currentState =>
    let nextState := tableGet a currentState (TransitionToIdx a c)
    if nextState = -1 ∨ (a.statesNames.length : Int) ≤ nextState then 1
    else RunLoop a rest nextState

/-- The state reached by the simulation loop, when it consumes the whole
string through entries that are defined and in range; `none` when the loop
stops early.  Same recursion as `RunLoop`, returning the ending state
instead of the verdict. -/
def RunStates (a : Automaton) : List Char → Int → Option Int
  | [], currentState => some currentState
  | c :: rest, currentState =>
    let nextState := tableGet a currentState (TransitionToIdx a c)
    if nextState = -1 ∨ (a.statesNames.length : Int) ≤ nextState then none
    else RunStates a rest nextState

/-- The run from `currentState` reaches, through defined in-range table
entries, a pair whose table entry is the sentinel `-1` (an undefined
transition). -/
def HitsUndefined (a : Automaton) : List Char → Int → Bool
  | [], _ => false
  | c :: rest, currentState =>
    let nextState := tableGet a currentState (TransitionToIdx a c)
    if nextState = -1 then true
    else if (a.statesNames.length : Int) ≤ nextState then false
    else HitsUndefined a rest nextState

/-- Model of `ProcessString` (src/Simulator.c lines 300-332).  First the
pre-scan over the whole string: any character outside the alphabet yields
result 2.  Then the simulation loop from the start state.  Results: 0
ACCEPTED, 1 REJECTED, 2 wrong symbol. -/
def ProcessString (a : Automaton) (s : List Char) : Nat :=
  if s.any (fun c => TransitionToIdx a c == -1) then 2
  else RunLoop a s a.startStateIndex

/-- The distinct failure exits of `LoadAutomaton`, one constructor per
`fprintf`-and-return-1 site (src/Simulator.c lines 118-259), in source
order. -/
inductive LoadErr where
  | cannotReadInitialState
  | cannotReadStates
  | unknownStartState
  | cannotReadSymbols
  | duplicateSymbol
  | cannotReadFinishStates
  | unknownFinishState
  | duplicateFinishState
  | invalidTransition
  | duplicateTransition
deriving DecidableEq

/-- The symbol-loading loop (src/Simulator.c lines 174-188) over the tokens
of the alphabet line: the first character of each token is appended after a
linear duplicate scan of the symbols loaded so far. -/
def loadSymbols (a : Automaton) : List String → Option LoadErr × Automaton
  | [] => (none, a)
  | w :: ws =>
    let c := w.toList.headD ' '
    if a.transitions.contains c then (some LoadErr.duplicateSymbol, a)
    else loadSymbols { a with transitions := a.transitions ++ [c] } ws

/-- The finish-state loop (src/Simulator.c lines 202-217) over the tokens of
the finish-state line: resolve each name, reject an unknown name and a name
whose flag is already set, otherwise set its flag. -/
def loadFinish (a : Automaton) : List String → Option LoadErr × Automaton
  | [] => (none, a)
  | w :: ws =>
    let idx := StateToIdx a w
    if idx = -1 then (some LoadErr.unknownFinishState, a)
    else if a.finishState.getD idx.toNat 0 = 1 then (some LoadErr.duplicateFinishState, a)
    else loadFinish { a with finishState := a.finishState.set idx.toNat 1 } ws

/-- The transition-loading loop (src/Simulator.c lines 229-253) over the
remaining lines: scan three tokens, resolve the endpoints and the symbol,
reject when any fails to resolve, reject when the table cell is already
occupied, otherwise record the target. -/
def loadTransitions (a : Automaton) : List String → Option LoadErr × Automaton
  | [] => (none, a)
  | line :: rest =>
    let t3 := scanf3 line
    let fromIdx := StateToIdx a t3.1
    let symbolIdx := TransitionToIdx a (t3.2.1.toList.headD ' ')
    let toIdx := StateToIdx a t3.2.2
    if fromIdx = -1 ∨ symbolIdx = -1 ∨ toIdx = -1 then (some LoadErr.invalidTransition, a)
    else if tableGet a fromIdx symbolIdx ≠ -1 then (some LoadErr.duplicateTransition, a)
    else loadTransitions (setTable a fromIdx symbolIdx toIdx) rest

/-- Model of `LoadAutomaton` (src/Simulator.c lines 118-259), over the
sequence of logical lines the `GetLine` calls inside it produce (terminators
stripped, blank and comment lines already absent).  The first argument is
the caller's struct as passed in (`Automaton a` in `main` is uninitialized
stack memory; the model threads an arbitrary initial record).  The returned
pair is the C return value — `none` for 0, `some e` for 1, with `e` naming
the `fprintf` site taken — together with the contents of the caller's struct
when the function returns.  Stages in source order: zero the counters, read
the start-state line verbatim, tokenize the state line into state names,
resolve the start state, load the alphabet, zero and load the finish flags,
initialize the table to `-1` and load the transitions. -/
def LoadAutomaton (a0 : Automaton) (lines : List String) : Option LoadErr × Automaton :=
  let a1 : Automaton := { a0 with statesNames := [], transitions := [] }
  match lines with
  | [] => (some LoadErr.cannotReadInitialState, a1)
  | initialState :: lines1 =>
    match lines1 with
    | [] => (some LoadErr.cannotReadStates, a1)
    | statesLine :: lines2 =>
      let a2 : Automaton := { a1 with statesNames := tokenizeS statesLine }
      let a3 : Automaton := { a2 with startStateIndex := StateToIdx a2 initialState }
      if a3.startStateIndex = -1 then (some LoadErr.unknownStartState, a3)
      else
        match lines2 with
        | [] => (some LoadErr.cannotReadSymbols, a3)
        | symbolLine :: lines3 =>
          match loadSymbols a3 (tokenizeS symbolLine) with
          | (some e, a4) => (some e, a4)
          | (none, a4) =>
            let a5 : Automaton := { a4 with finishState := List.replicate a4.statesNames.length 0 }
            match lines3 with
            | [] => (some LoadErr.cannotReadFinishStates, a5)
            | finishLine :: lines4 =>
              match loadFinish a5 (tokenizeS finishLine) with
              | (some e, a6) => (some e, a6)
              | (none, a6) =>
                let a7 : Automaton :=
                  { a6 with
                    transitionTable :=
                      List.replicate a6.statesNames.length
                        (List.replicate a6.transitions.length (-1)) }
                loadTransitions a7 lines4

/-- Structural validity of a loaded automaton, as `ProcessString` relies on
it: the start index is in range, the finish-flag array covers the states,
the table is `statesNum` by `transitionsNum`, and every defined entry is an
in-range state index. -/
def WFAutomaton (a : Automaton) : Prop :=
  0 ≤ a.startStateIndex ∧
  a.startStateIndex < (a.statesNames.length : Int) ∧
  a.finishState.length = a.statesNames.length ∧
  a.transitionTable.length = a.statesNames.length ∧
  (∀ row ∈ a.transitionTable, row.length = a.transitions.length) ∧
  (∀ row ∈ a.transitionTable, ∀ e ∈ row, e = -1 ∨ (0 ≤ e ∧ e < (a.statesNames.length : Int)))

/-- The resolved `(from, symbol)` cell a transition line addresses, read off
exactly as `loadTransitions` computes it. -/
def transPair (a : Automaton) (line : String) : Int × Int :=
  (StateToIdx a (scanf3 line).1, TransitionToIdx a ((scanf3 line).2.1.toList.headD ' '))

/-- The three lookups of a transition line all succeed. -/
def transResolves (a : Automaton) (line : String) : Prop :=
  StateToIdx a (scanf3 line).1 ≠ -1 ∧
  TransitionToIdx a ((scanf3 line).2.1.toList.headD ' ') ≠ -1 ∧
  StateToIdx a (scanf3 line).2.2 ≠ -1

instance (a : Automaton) (line : String) : Decidable (transResolves a line) := by
  unfold transResolves; infer_instance

/-! ### Small list facts used throughout -/

theorem length_dropWhile_le {α : Type} (p : α → Bool) (l : List α) :
    (l.dropWhile p).length ≤ l.length := by
  induction l with
  | nil => simp
  | cons x xs ih =>
    by_cases h : p x
    · simp [List.dropWhile, h]; omega
    · simp [List.dropWhile, h]

theorem getD_set_self {α : Type} (l : List α) (i : Nat) (x d : α) (h : i < l.length) :
    (l.set i x).getD i d = x := by
  induction l generalizing i with
  | nil => simp at h
  | cons y ys ih =>
    cases i with
    | zero => simp
    | succ j =>
      simp only [List.set, List.getD_cons_succ]
      exact ih j (by simpa using h)

theorem getD_set_ne {α : Type} (l : List α) (i j : Nat) (x d : α) (h : i ≠ j) :
    (l.set i x).getD j d = l.getD j d := by
  induction l generalizing i j with
  | nil => simp
  | cons y ys ih =>
    cases i with
    | zero =>
      cases j with
      | zero => exact absurd rfl h
      | succ k => simp
    | succ i2 =>
      cases j with
      | zero => simp
      | succ k =>
        simp only [List.set, List.getD_cons_succ]
        exact ih i2 k (by omega)

theorem getD_mem {α : Type} (l : List α) (i : Nat) (d : α) (h : i < l.length) :
    l.getD i d ∈ l := by
  induction l generalizing i with
  | nil => simp at h
  | cons y ys ih =>
    cases i with
    | zero => simp
    | succ j =>
      simp only [List.getD_cons_succ]
      exact List.mem_cons_of_mem y (ih j (by simpa using h))

/-! ### Properties of the linear index search -/

theorem cIndexOf_nonneg {α : Type} [DecidableEq α] (l : List α) (x : α)
    (h : cIndexOf l x ≠ -1) : 0 ≤ cIndexOf l x := by
  induction l with
  | nil => simp [cIndexOf] at h
  | cons y ys ih =>
    simp only [cIndexOf] at h ⊢
    by_cases hxy : x = y
    · simp [hxy]
    · simp only [hxy, if_false] at h ⊢
      by_cases hr : cIndexOf ys x = -1
      · simp [hr] at h
      · have := ih hr
        simp only [hr, if_false]
        omega

theorem cIndexOf_eq_neg_iff {α : Type} [DecidableEq α] (l : List α) (x : α) :
    cIndexOf l x = -1 ↔ x ∉ l := by
  induction l with
  | nil => simp [cIndexOf]
  | cons y ys ih =>
    simp only [cIndexOf, List.mem_cons]
    by_cases hxy : x = y
    · simp [hxy]
    · simp only [hxy, if_false]
      by_cases hr : cIndexOf ys x = -1
      · simp [hr, hxy, ih.mp hr]
      · have h0 : (0 : Int) ≤ cIndexOf ys x := cIndexOf_nonneg ys x hr
        simp only [hr, if_false]
        constructor
        · intro h; omega
        · intro h
          exact absurd (ih.mpr (fun hmem => h (Or.inr hmem))) hr

theorem cIndexOf_lt_length {α : Type} [DecidableEq α] (l : List α) (x : α)
    (h : cIndexOf l x ≠ -1) : cIndexOf l x < (l.length : Int) := by
  induction l with
  | nil => simp [cIndexOf] at h
  | cons y ys ih =>
    simp only [cIndexOf, List.length_cons] at h ⊢
    by_cases hxy : x = y
    · simp only [hxy, if_true]
      push_cast
      omega
    · simp only [hxy, if_false] at h ⊢
      by_cases hr : cIndexOf ys x = -1
      · simp [hr] at h
      · have := ih hr
        simp only [hr, if_false]
        push_cast
        omega

theorem cIndexOf_first {α : Type} [DecidableEq α] (l : List α) (x : α) (i : Nat)
    (hi : i < l.length) (hx : l.get ⟨i, hi⟩ = x)
    (hfirst : ∀ j (hj : j < l.length), j < i → l.get ⟨j, hj⟩ ≠ x) :
    cIndexOf l x = (i : Int) := by
  induction l generalizing i with
  | nil => simp at hi
  | cons y ys ih =>
    cases i with
    | zero =>
      simp only [List.get] at hx
      simp [cIndexOf, hx]
    | succ k =>
      have hy : x ≠ y := by
        intro hxy
        exact hfirst 0 (by simp) (by omega) (by simpa using hxy.symm)
      have hk : k < ys.length := by simpa using hi
      have hrec : cIndexOf ys x = (k : Int) := by
        apply ih k hk
        · simpa using hx
        · intro j hj hjk
          have := hfirst (j + 1) (by simpa using Nat.succ_lt_succ hj) (by omega)
          simpa using this
      simp only [cIndexOf, hy, if_false, hrec]
      have hne : (k : Int) ≠ -1 := by omega
      simp only [hne, if_false]
      push_cast
      ring

/-! ### The simulation loop -/

theorem runLoop_eq_runStates (a : Automaton) :
    ∀ (s : List Char) (cur : Int),
      RunLoop a s cur =
        (match RunStates a s cur with
         | none => 1
         | some f => if isFinal a f then 0 else 1) := by
  intro s
  induction s with
  | nil => intro cur; simp [RunLoop, RunStates]
  | cons c rest ih =>
    intro cur
    simp only [RunLoop, RunStates]
    split
    · rfl
    · exact ih _

theorem runLoop_zero_or_one (a : Automaton) :
    ∀ (s : List Char) (cur : Int), RunLoop a s cur = 0 ∨ RunLoop a s cur = 1 := by
  intro s
  induction s with
  | nil =>
    intro cur
    simp only [RunLoop]
    split <;> simp
  | cons c rest ih =>
    intro cur
    simp only [RunLoop]
    split
    · right; rfl
    · exact ih _

theorem hitsUndefined_runLoop (a : Automaton) :
    ∀ (s : List Char) (cur : Int),
      HitsUndefined a s cur = true → RunLoop a s cur = 1 := by
  intro s
  induction s with
  | nil => intro cur h; simp [HitsUndefined] at h
  | cons c rest ih =>
    intro cur h
    simp only [HitsUndefined] at h
    simp only [RunLoop]
    by_cases h1 : tableGet a cur (TransitionToIdx a c) = -1
    · simp [h1]
    · simp only [h1, if_false] at h
      by_cases h2 : (a.statesNames.length : Int) ≤ tableGet a cur (TransitionToIdx a c)
      · simp [h2] at h
      · have : ¬(tableGet a cur (TransitionToIdx a c) = -1 ∨
            (a.statesNames.length : Int) ≤ tableGet a cur (TransitionToIdx a c)) := by
          push_neg
          exact ⟨h1, lt_of_not_le h2⟩
        simp only [this, if_false]
        simp only [h2, if_false] at h
        exact ih _ h

theorem transitionToIdx_ne_neg_of_mem (a : Automaton) (c : Char)
    (h : c ∈ a.transitions) : TransitionToIdx a c ≠ -1 := by
  intro hc
  exact absurd h ((cIndexOf_eq_neg_iff _ _).mp hc)

theorem processString_prescan_false (a : Automaton) (s : List Char)
    (h : ∀ c ∈ s, c ∈ a.transitions) :
    ProcessString a s = RunLoop a s a.startStateIndex := by
  have hall : s.any (fun c => TransitionToIdx a c == -1) = false := by
    rw [List.any_eq_false]
    intro c hc
    simpa using transitionToIdx_ne_neg_of_mem a c (h c hc)
  simp [ProcessString, hall]

/-! ### Claim theorems about the simulation engine -/

/-- C1: for every automaton and every input string containing at least one
character absent from the alphabet, `ProcessString` returns 2 (wrong
symbol), and in particular never 0 (accepted) or 1 (rejected), no matter
where in the string the foreign character sits and regardless of the
transition table: the pre-scan of src/Simulator.c lines 304-307 fires
first. -/
theorem processString_invalid_symbol (a : Automaton) (s : List Char)
    (h : ∃ c ∈ s, c ∉ a.transitions) :
    ProcessString a s = 2 ∧ ProcessString a s ≠ 0 ∧ ProcessString a s ≠ 1 := by
  obtain ⟨c, hc, hnm⟩ := h
  have hidx : TransitionToIdx a c = -1 := (cIndexOf_eq_neg_iff _ _).mpr hnm
  have hany : s.any (fun c => TransitionToIdx a c == -1) = true := by
    rw [List.any_eq_true]
    exact ⟨c, hc, by simp [hidx]⟩
  refine ⟨?_, ?_, ?_⟩ <;> simp [ProcessString, hany]

theorem processString_invalid_symbol_witness :
    (∃ c ∈ ['1', '0', '2'],
        c ∉ (Automaton.mk ["even", "odd"] [1, 0] 0 ['0', '1'] [[0, 1], [1, 0]]).transitions) ∧
    ProcessString (Automaton.mk ["even", "odd"] [1, 0] 0 ['0', '1'] [[0, 1], [1, 0]])
      ['1', '0', '2'] = 2 :=
  ⟨by decide,
   (processString_invalid_symbol
      (Automaton.mk ["even", "odd"] [1, 0] 0 ['0', '1'] [[0, 1], [1, 0]])
      ['1', '0', '2'] (by decide)).1⟩

/-- C2: on the empty input string `ProcessString` returns 0 exactly when the
start state's finish flag is set and 1 otherwise, and the transition table
is never consulted: the verdict is unchanged under any replacement of the
table (src/Simulator.c lines 300-332 with a zero-length loop). -/
theorem processString_empty_input (a : Automaton) :
    (ProcessString a [] = 0 ↔ isFinal a a.startStateIndex = true) ∧
    (ProcessString a [] = 1 ↔ isFinal a a.startStateIndex = false) ∧
    (∀ tt : List (List Int),
      ProcessString { a with transitionTable := tt } [] = ProcessString a []) := by
  refine ⟨?_, ?_, ?_⟩
  · simp only [ProcessString, List.any_nil, RunLoop]
    split <;> simp_all
  · simp only [ProcessString, List.any_nil, RunLoop]
    split <;> simp_all
  · intro tt
    simp [ProcessString, RunLoop, isFinal]

/-- C3: for every automaton and every input made of alphabet characters
only, if the simulation loop reaches, through defined in-range entries, a
pair whose table entry is undefined (`-1`), then `ProcessString` returns 1 —
the ordinary rejected verdict of src/Simulator.c lines 318-322, not an error
value. -/
theorem processString_undefined_transition_rejects (a : Automaton) (s : List Char)
    (halpha : ∀ c ∈ s, c ∈ a.transitions)
    (hundef : HitsUndefined a s a.startStateIndex = true) :
    ProcessString a s = 1 := by
  rw [processString_prescan_false a s halpha]
  exact hitsUndefined_runLoop a s a.startStateIndex hundef

theorem processString_undefined_transition_rejects_witness :
    (∀ c ∈ ['a', 'a'], c ∈ (Automaton.mk ["s0", "s1"] [0, 1] 0 ['a'] [[1], [-1]]).transitions) ∧
    HitsUndefined (Automaton.mk ["s0", "s1"] [0, 1] 0 ['a'] [[1], [-1]]) ['a', 'a'] 0 = true ∧
    ProcessString (Automaton.mk ["s0", "s1"] [0, 1] 0 ['a'] [[1], [-1]]) ['a', 'a'] = 1 :=
  ⟨by decide, by decide,
   processString_undefined_transition_rejects
     (Automaton.mk ["s0", "s1"] [0, 1] 0 ['a'] [[1], [-1]]) ['a', 'a']
     (by decide) (by decide)⟩

/-- C4: for every automaton and every input made of alphabet characters
only, `ProcessString` is total and two-valued: the result is 0 or 1 (never
2, never anything else), and it is 0 exactly when the fold over the whole
input through defined transitions completes in a state whose finish flag is
set (src/Simulator.c lines 310-331). -/
theorem processString_total_on_alphabet (a : Automaton) (s : List Char)
    (h : ∀ c ∈ s, c ∈ a.transitions) :
    (ProcessString a s = 0 ∨ ProcessString a s = 1) ∧
    (ProcessString a s = 0 ↔
      ∃ f, RunStates a s a.startStateIndex = some f ∧ isFinal a f = true) := by
  rw [processString_prescan_false a s h, runLoop_eq_runStates]
  constructor
  · match RunStates a s a.startStateIndex with
    | none => right; rfl
    | some f =>
      simp only
      split
      · left; rfl
      · right; rfl
  · match hr : RunStates a s a.startStateIndex with
    | none => simp
    | some f =>
      simp only
      by_cases hf : isFinal a f
      · simp [hf]
      · simp [hf]

theorem processString_total_on_alphabet_witness :
    (∀ c ∈ ['1', '1'],
        c ∈ (Automaton.mk ["even", "odd"] [1, 0] 0 ['0', '1'] [[0, 1], [1, 0]]).transitions) ∧
    (ProcessString (Automaton.mk ["even", "odd"] [1, 0] 0 ['0', '1'] [[0, 1], [1, 0]])
        ['1', '1'] = 0 ∨
      ProcessString (Automaton.mk ["even", "odd"] [1, 0] 0 ['0', '1'] [[0, 1], [1, 0]])
        ['1', '1'] = 1) :=
  ⟨by decide,
   (processString_total_on_alphabet
      (Automaton.mk ["even", "odd"] [1, 0] 0 ['0', '1'] [[0, 1], [1, 0]])
      ['1', '1'] (by decide)).1⟩

/-- C10: `ProcessString` only ever returns 0, 1 or 2; the value 3 whose case
the driver's switch at src/Simulator.c lines 379-381 handles is unreachable,
for every automaton and every input string. -/
theorem processString_result_range (a : Automaton) (s : List Char) :
    (ProcessString a s = 0 ∨ ProcessString a s = 1 ∨ ProcessString a s = 2) ∧
    ProcessString a s ≠ 3 := by
  have h : ProcessString a s = 0 ∨ ProcessString a s = 1 ∨ ProcessString a s = 2 := by
    by_cases hany : s.any (fun c => TransitionToIdx a c == -1) = true
    · right; right; simp [ProcessString, hany]
    · have : ProcessString a s = RunLoop a s a.startStateIndex := by
        simp [ProcessString, Bool.eq_false_iff.mpr hany]
      rw [this]
      rcases runLoop_zero_or_one a s a.startStateIndex with h0 | h1
      · left; exact h0
      · right; left; exact h1
  refine ⟨h, ?_⟩
  rcases h with h | h | h <;> omega

/-! ### Faithfulness of the fuelled loops

`ReadWord` and the `%s` cursor both consume at least one character whenever
they produce a word, so the fuel given in `WordsOf` and `ScanTokens` (the
line length) never runs out before the C loop would stop by itself. -/

theorem ReadWord_rest_lt (s w r : List Char) (h : ReadWord s = some (w, r)) :
    r.length < s.length := by
  cases s with
  | nil => simp [ReadWord, ScanWord] at h
  | cons c cs =>
    have hr : r = ((c :: cs).dropWhile (fun c => c != ' ')).dropWhile (fun c => c == ' ') := by
      simp only [ReadWord] at h
      rcases hsw : ScanWord (c :: cs) with _ | w2
      · rw [hsw] at h; exact absurd h (by simp)
      · rw [hsw] at h
        simp only [Option.some.injEq, Prod.mk.injEq] at h
        exact h.2.symm
    by_cases hc : c = ' '
    · subst hc
      rw [hr]
      simp only [List.dropWhile_cons]
      norm_num
      calc (List.dropWhile (fun c => c == ' ') cs).length
          ≤ cs.length := length_dropWhile_le _ _
        _ < cs.length + 1 := by omega
    · rw [hr]
      have h1 : (c :: cs).dropWhile (fun c => c != ' ') = cs.dropWhile (fun c => c != ' ') := by
        simp [List.dropWhile_cons, hc]
      rw [h1]
      calc ((cs.dropWhile (fun c => c != ' ')).dropWhile (fun c => c == ' ')).length
          ≤ (cs.dropWhile (fun c => c != ' ')).length := length_dropWhile_le _ _
        _ ≤ cs.length := length_dropWhile_le _ _
        _ < cs.length + 1 := by omega

theorem wordsOfAux_eq_of_le (f1 : Nat) :
    ∀ (f2 : Nat) (s : List Char), s.length ≤ f1 → s.length ≤ f2 →
      WordsOfAux f1 s = WordsOfAux f2 s := by
  induction f1 with
  | zero =>
    intro f2 s h1 h2
    have : s = [] := List.length_eq_zero.mp (by omega)
    subst this
    cases f2 <;> simp [WordsOfAux, ReadWord, ScanWord]
  | succ f ih =>
    intro f2 s h1 h2
    cases f2 with
    | zero =>
      have : s = [] := List.length_eq_zero.mp (by omega)
      subst this
      simp [WordsOfAux, ReadWord, ScanWord]
    | succ g =>
      simp only [WordsOfAux]
      rcases hrw : ReadWord s with _ | wr
      · rfl
      · obtain ⟨w, r⟩ := wr
        have hlt := ReadWord_rest_lt s w r hrw
        have := ih g r (by omega) (by omega)
        simp [this]

/-! ### Claim results about the line source and the tokenizer -/

/-- C5 (code bug): a stream whose final content line carries no trailing
line terminator loses that line.  Reading the final characters sets the C
end-of-file indicator inside `fgets`, and `GetLine` then takes its
`if (feof(f)) return NULL` exit (src/Simulator.c line 53), so the line that
was just read is discarded instead of being yielded — against the spec and
against the function's own comment, which promises a pointer whenever
something was read.  Concretely: content `"abc"` with no newline produces
end-of-sequence, while the same content with a terminator produces the
line. -/
theorem getLine_drops_unterminated_final_line :
    (GetLine ⟨['a', 'b', 'c'], false⟩).1 = none ∧
    (GetLine ⟨['a', 'b', 'c', '\n'], false⟩).1 = some ['a', 'b', 'c'] := by decide

/-- Every stream whose remaining content holds no line terminator at all is
reported as ended by `GetLine`, whatever that content is: the general shape
of the drop of an unterminated final line. -/
theorem getLine_none_of_no_newline (content : List Char) (h : '\n' ∉ content) :
    (GetLine ⟨content, false⟩).1 = none := by
  have hfind : content.findIdx? (fun c => c == '\n') = none := by
    rw [List.findIdx?_eq_none_iff]
    intro x hx
    simp only [beq_eq_false_iff_ne, ne_eq]
    intro heq
    exact h (heq ▸ hx)
  rcases hc : content with _ | ⟨c, cs⟩
  · simp [GetLine, GetLineLoopAux, fgetsModel]
  · rw [← hc]
    have hne : content.isEmpty = false := by simp [hc]
    have hfg : fgetsModel ⟨content, false⟩ = (some content, ⟨[], true⟩) := by
      simp [fgetsModel, hne, hfind]
    simp only [GetLine]
    rcases hfuel : content.length with _ | n
    · simp [hc] at hfuel
    · simp [GetLineLoopAux, hfg]

/-- C6 (code bug): the cursor-advance loops of `ReadWord` skip the word
first and the spaces second, without skipping leading spaces before the
word; on a line that begins with a space the advance therefore stays at the
first word, which the next call reads again.  Iterating `ReadWord` on
`" a b"` yields the token `a` twice, while the whitespace-delimited token
sequence of that line (computed as `sscanf`'s `%s` cursor does) is `a`,
`b` — each token once. -/
theorem readWord_duplicates_first_token_after_leading_space :
    tokenizeS " a b" = ["a", "a", "b"] ∧
    ScanTokens (" a b".toList) = [['a'], ['b']] := by decide

/-! ### What each loader loop leaves untouched -/

theorem loadSymbols_preserve : ∀ (ws : List String) (a : Automaton),
    (loadSymbols a ws).2.statesNames = a.statesNames ∧
    (loadSymbols a ws).2.startStateIndex = a.startStateIndex ∧
    (loadSymbols a ws).2.finishState = a.finishState ∧
    (loadSymbols a ws).2.transitionTable = a.transitionTable := by
  intro ws
  induction ws with
  | nil => intro a; simp [loadSymbols]
  | cons w ws ih =>
    intro a
    simp only [loadSymbols]
    split
    · simp
    · simpa using ih { a with transitions := a.transitions ++ [w.toList.headD ' '] }

theorem loadFinish_preserve : ∀ (ws : List String) (a : Automaton),
    (loadFinish a ws).2.statesNames = a.statesNames ∧
    (loadFinish a ws).2.startStateIndex = a.startStateIndex ∧
    (loadFinish a ws).2.transitions = a.transitions ∧
    (loadFinish a ws).2.transitionTable = a.transitionTable ∧
    (loadFinish a ws).2.finishState.length = a.finishState.length := by
  intro ws
  induction ws with
  | nil => intro a; simp [loadFinish]
  | cons w ws ih =>
    intro a
    simp only [loadFinish]
    split
    · simp
    · split
      · simp
      · have := ih { a with finishState := a.finishState.set (StateToIdx a w).toNat 1 }
        simpa [List.length_set] using this

theorem loadTransitions_preserve : ∀ (ts : List String) (a : Automaton),
    (loadTransitions a ts).2.statesNames = a.statesNames ∧
    (loadTransitions a ts).2.startStateIndex = a.startStateIndex ∧
    (loadTransitions a ts).2.transitions = a.transitions ∧
    (loadTransitions a ts).2.finishState = a.finishState := by
  intro ts
  induction ts with
  | nil => intro a; simp [loadTransitions]
  | cons line ts ih =>
    intro a
    simp only [loadTransitions]
    split
    · simp
    · split
      · simp
      · simpa [setTable] using
          ih (setTable a (StateToIdx a (scanf3 line).1)
            (TransitionToIdx a ((scanf3 line).2.1.toList.headD ' '))
            (StateToIdx a (scanf3 line).2.2))

theorem loadTransitions_table_wf : ∀ (ts : List String) (a : Automaton),
    a.transitionTable.length = a.statesNames.length →
    (∀ row ∈ a.transitionTable, row.length = a.transitions.length) →
    (∀ row ∈ a.transitionTable, ∀ e ∈ row,
      e = -1 ∨ (0 ≤ e ∧ e < (a.statesNames.length : Int))) →
    (loadTransitions a ts).2.transitionTable.length = a.statesNames.length ∧
    (∀ row ∈ (loadTransitions a ts).2.transitionTable, row.length = a.transitions.length) ∧
    (∀ row ∈ (loadTransitions a ts).2.transitionTable, ∀ e ∈ row,
      e = -1 ∨ (0 ≤ e ∧ e < (a.statesNames.length : Int))) := by
  intro ts
  induction ts with
  | nil => intro a h1 h2 h3; simpa [loadTransitions] using ⟨h1, h2, h3⟩
  | cons line ts ih =>
    intro a h1 h2 h3
    simp only [loadTransitions]
    split
    · exact ⟨h1, h2, h3⟩
    · split
      · exact ⟨h1, h2, h3⟩
      · rename_i hres _
        push_neg at hres
        obtain ⟨hfrom, hsym, hto⟩ := hres
        have hfrom0 : 0 ≤ StateToIdx a (scanf3 line).1 := cIndexOf_nonneg _ _ hfrom
        have hfromlt : StateToIdx a (scanf3 line).1 < (a.statesNames.length : Int) :=
          cIndexOf_lt_length _ _ hfrom
        have hto0 : 0 ≤ StateToIdx a (scanf3 line).2.2 := cIndexOf_nonneg _ _ hto
        have htolt : StateToIdx a (scanf3 line).2.2 < (a.statesNames.length : Int) :=
          cIndexOf_lt_length _ _ hto
        set frm := StateToIdx a (scanf3 line).1 with hfrm
        set sym := TransitionToIdx a ((scanf3 line).2.1.toList.headD ' ') with hsymdef
        set tgt := StateToIdx a (scanf3 line).2.2 with htgt
        have hfr_nat : frm.toNat < a.transitionTable.length := by
          rw [h1]; omega
        have hmemrow : a.transitionTable.getD frm.toNat [] ∈ a.transitionTable :=
          getD_mem _ _ _ hfr_nat
        have key := ih (setTable a frm sym tgt) ?_ ?_ ?_
        · simpa [setTable] using key
        · simp [setTable, List.length_set, h1]
        · intro row hrow
          simp only [setTable] at hrow
          rcases List.mem_or_eq_of_mem_set hrow with hold | hnew
          · exact h2 row hold
          · rw [hnew]
            simp only [List.length_set]
            exact h2 _ hmemrow
        · intro row hrow e he
          simp only [setTable] at hrow ⊢
          rcases List.mem_or_eq_of_mem_set hrow with hold | hnew
          · exact h3 row hold e he
          · rw [hnew] at he
            rcases List.mem_or_eq_of_mem_set he with holde | hnewe
            · exact h3 _ hmemrow e holde
            · right
              rw [hnewe]
              exact ⟨hto0, htolt⟩

/-- C7 (amended): the loader aborts at the first error of any stage and
reports the failure to the caller through its result value, and a partial
automaton is never returned as a success: whenever `LoadAutomaton` reports
success, the struct it hands back is structurally valid (start index in
range, finish flags covering the states, table of the right dimensions with
only in-range or `-1` entries).  What the original claim adds — that the
caller cannot observe partially built state after a failure — is false; the
failing loader leaves the partially filled struct in the caller's hands, as
the counterexample shows. -/
theorem loadAutomaton_success_wf (a0 : Automaton) (lines : List String) (a : Automaton)
    (h : LoadAutomaton a0 lines = (none, a)) : WFAutomaton a := by
  match lines with
  | [] => simp [LoadAutomaton] at h
  | [l1] => simp [LoadAutomaton] at h
  | l1 :: l2 :: lines2 =>
    simp only [LoadAutomaton] at h
    split at h
    · simp at h
    · rename_i hidx
      split at h
      · simp at h
      · rename_i l3 lines3
        split at h
        · simp at h
        · rename_i a4 heqS
          split at h
          · simp at h
          · rename_i l4 lines4
            split at h
            · simp at h
            · rename_i a6 heqF
              have hp4 := loadSymbols_preserve (tokenizeS l3)
                { statesNames := tokenizeS l2, finishState := a0.finishState,
                  startStateIndex := StateToIdx
                    { statesNames := tokenizeS l2, finishState := a0.finishState,
                      startStateIndex := a0.startStateIndex, transitions := [],
                      transitionTable := a0.transitionTable } l1,
                  transitions := [], transitionTable := a0.transitionTable }
              rw [heqS] at hp4
              simp only at hp4
              obtain ⟨h41, h42, h43, h44⟩ := hp4
              have hp6 := loadFinish_preserve (tokenizeS l4)
                { statesNames := a4.statesNames,
                  finishState := List.replicate a4.statesNames.length 0,
                  startStateIndex := a4.startStateIndex, transitions := a4.transitions,
                  transitionTable := a4.transitionTable }
              rw [heqF] at hp6
              simp only at hp6
              obtain ⟨h61, h62, h63, h64, h65⟩ := hp6
              have hpT := loadTransitions_preserve lines4
                { statesNames := a6.statesNames, finishState := a6.finishState,
                  startStateIndex := a6.startStateIndex, transitions := a6.transitions,
                  transitionTable :=
                    List.replicate a6.statesNames.length
                      (List.replicate a6.transitions.length (-1)) }
              rw [h] at hpT
              simp only at hpT
              obtain ⟨hT1, hT2, hT3, hT4⟩ := hpT
              have htw := loadTransitions_table_wf lines4
                { statesNames := a6.statesNames, finishState := a6.finishState,
                  startStateIndex := a6.startStateIndex, transitions := a6.transitions,
                  transitionTable :=
                    List.replicate a6.statesNames.length
                      (List.replicate a6.transitions.length (-1)) }
                (by simp)
                (by
                  intro row hrow
                  simp only at hrow
                  rw [List.eq_of_mem_replicate hrow]
                  simp)
                (by
                  intro row hrow e he
                  simp only at hrow
                  rw [List.eq_of_mem_replicate hrow] at he
                  left
                  exact List.eq_of_mem_replicate he)
              rw [h] at htw
              simp only at htw
              obtain ⟨hW1, hW2, hW3⟩ := htw
              have hidx0 : ¬cIndexOf (tokenizeS l2) l1 = -1 := hidx
              have hnames : a.statesNames = tokenizeS l2 := by
                rw [hT1, h61, h41]
              have hstart : a.startStateIndex = cIndexOf (tokenizeS l2) l1 := by
                rw [hT2, h62, h42]
                rfl
              refine ⟨?_, ?_, ?_, ?_, ?_, ?_⟩
              · rw [hstart]
                exact cIndexOf_nonneg _ _ hidx0
              · rw [hstart, hnames]
                exact cIndexOf_lt_length _ _ hidx0
              · rw [hT4, h65, List.length_replicate, h41, hnames]
              · rw [hW1, h61, h41, hnames]
              · intro row hrow
                rw [hT3]
                exact hW2 row hrow
              · intro row hrow e he
                rcases hW3 row hrow e he with h1 | h2
                · exact Or.inl h1
                · right
                  rw [hnames]
                  rw [h61, h41] at h2
                  exact h2

/-- The caller's struct of `main` (src/Simulator.c line 344) modelled with
all fields empty; `LoadAutomaton` overwrites the counters first, so the
initial contents never influence a successful load. -/
def emptyAutomaton : Automaton := Automaton.mk [] [] 0 [] []

/-- The even-number-of-ones automaton file of spec section 8, as the line
sequence `GetLine` yields for it. -/
def exampleLines : List String :=
  ["even", "even odd", "0 1", "even", "even 0 even", "even 1 odd", "odd 0 odd", "odd 1 even"]

theorem loadAutomaton_success_wf_witness :
    LoadAutomaton emptyAutomaton exampleLines =
      (none, (LoadAutomaton emptyAutomaton exampleLines).2) ∧
    WFAutomaton (LoadAutomaton emptyAutomaton exampleLines).2 :=
  ⟨rfl, loadAutomaton_success_wf emptyAutomaton exampleLines _ rfl⟩

/-- C7 (counterexample): on a file whose start state is missing from the
state list, `LoadAutomaton` reports failure, yet the caller's struct now
holds the state list built before the error — the partially built automaton
is observable, against the claim that it cannot be. -/
theorem loadAutomaton_partial_state_observable :
    (LoadAutomaton emptyAutomaton ["s0", "s1"]).1 = some LoadErr.unknownStartState ∧
    (LoadAutomaton emptyAutomaton ["s0", "s1"]).2.statesNames = ["s1"] ∧
    (LoadAutomaton emptyAutomaton ["s0", "s1"]).2 ≠ emptyAutomaton := by decide

/-! ### Reading the table around a write -/

theorem setTable_statesNames (a : Automaton) (f s v : Int) :
    (setTable a f s v).statesNames = a.statesNames := rfl

theorem setTable_transitions (a : Automaton) (f s v : Int) :
    (setTable a f s v).transitions = a.transitions := rfl

theorem transPair_setTable (a : Automaton) (f s v : Int) (t : String) :
    transPair (setTable a f s v) t = transPair a t := rfl

theorem transResolves_setTable (a : Automaton) (f s v : Int) (t : String) :
    transResolves (setTable a f s v) t ↔ transResolves a t := Iff.rfl

theorem tableGet_setTable_self (a : Automaton) (f s v : Int)
    (hf : f.toNat < a.transitionTable.length)
    (hs : s.toNat < (a.transitionTable.getD f.toNat []).length) :
    tableGet (setTable a f s v) f s = v := by
  simp only [tableGet, setTable]
  rw [getD_set_self _ _ _ _ hf]
  rw [getD_set_self _ _ _ _ (by simpa [List.length_set] using hs)]

theorem tableGet_setTable_ne (a : Automaton) (f s v p q : Int)
    (h : p.toNat ≠ f.toNat ∨ q.toNat ≠ s.toNat) :
    tableGet (setTable a f s v) p q = tableGet a p q := by
  simp only [tableGet, setTable]
  rcases h with hp | hq
  · rw [getD_set_ne _ _ _ _ _ (fun he => hp he.symm)]
  · by_cases hpf : p.toNat = f.toNat
    · rw [hpf]
      by_cases hran : f.toNat < a.transitionTable.length
      · rw [getD_set_self _ _ _ _ hran]
        rw [getD_set_ne _ _ _ _ _ (fun he => hq he.symm)]
      · rw [List.set_eq_of_length_le (by omega)]
    · rw [getD_set_ne _ _ _ _ _ (fun he => hpf he.symm)]

/-! ### A duplicate cell forces the duplicate-transition exit -/

theorem loadTransitions_occupied : ∀ (ts : List String) (a : Automaton),
    (∀ t ∈ ts, transResolves a t) →
    (∃ t ∈ ts, tableGet a (transPair a t).1 (transPair a t).2 ≠ -1) →
    (loadTransitions a ts).1 = some LoadErr.duplicateTransition := by
  intro ts
  induction ts with
  | nil => intro a _ hex; simp at hex
  | cons line ts ih =>
    intro a hres hex
    have hline := hres line (List.mem_cons_self _ _)
    obtain ⟨hf, hs, ht⟩ := hline
    simp only [loadTransitions]
    rw [if_neg (by push_neg; exact ⟨hf, hs, ht⟩)]
    by_cases hocc : tableGet a (StateToIdx a (scanf3 line).1)
        (TransitionToIdx a ((scanf3 line).2.1.toList.headD ' ')) ≠ -1
    · rw [if_pos hocc]
    · rw [if_neg hocc]
      push_neg at hocc
      obtain ⟨w, hw, hwocc⟩ := hex
      rcases List.mem_cons.mp hw with hw2 | hw2
      · exfalso
        subst hw2
        exact absurd hocc (by simpa [transPair] using hwocc)
      · apply ih
        · intro t htmem
          rw [transResolves_setTable]
          exact hres t (List.mem_cons_of_mem _ htmem)
        · refine ⟨w, hw2, ?_⟩
          rw [transPair_setTable]
          have hwres := hres w (List.mem_cons_of_mem _ hw2)
          obtain ⟨hwf, hws, hwt⟩ := hwres
          have hw1 : 0 ≤ (transPair a w).1 := cIndexOf_nonneg _ _ hwf
          have hw2 : 0 ≤ (transPair a w).2 := cIndexOf_nonneg _ _ hws
          have hf1 : 0 ≤ StateToIdx a (scanf3 line).1 := cIndexOf_nonneg _ _ hf
          have hs1 : 0 ≤ TransitionToIdx a ((scanf3 line).2.1.toList.headD ' ') :=
            cIndexOf_nonneg _ _ hs
          have hnepair : (transPair a w).1 ≠ StateToIdx a (scanf3 line).1 ∨
              (transPair a w).2 ≠ TransitionToIdx a ((scanf3 line).2.1.toList.headD ' ') := by
            by_contra hcon
            push_neg at hcon
            apply hwocc
            rw [hcon.1, hcon.2]
            exact hocc
          rw [tableGet_setTable_ne]
          · exact hwocc
          · rcases hnepair with h1 | h2
            · left; omega
            · right; omega

theorem loadTransitions_duplicate : ∀ (ts : List String) (a : Automaton),
    a.transitionTable.length = a.statesNames.length →
    (∀ row ∈ a.transitionTable, row.length = a.transitions.length) →
    (∀ t ∈ ts, transResolves a t) →
    ¬(ts.map (transPair a)).Nodup →
    (loadTransitions a ts).1 = some LoadErr.duplicateTransition := by
  intro ts
  induction ts with
  | nil => intro a _ _ _ hdup; simp at hdup
  | cons line ts ih =>
    intro a hlen hrows hres hdup
    have hline := hres line (List.mem_cons_self _ _)
    obtain ⟨hf, hs, ht⟩ := hline
    simp only [loadTransitions]
    rw [if_neg (by push_neg; exact ⟨hf, hs, ht⟩)]
    by_cases hocc : tableGet a (StateToIdx a (scanf3 line).1)
        (TransitionToIdx a ((scanf3 line).2.1.toList.headD ' ')) ≠ -1
    · rw [if_pos hocc]
    · rw [if_neg hocc]
      have hf0 : 0 ≤ StateToIdx a (scanf3 line).1 := cIndexOf_nonneg _ _ hf
      have hflt : StateToIdx a (scanf3 line).1 < (a.statesNames.length : Int) :=
        cIndexOf_lt_length _ _ hf
      have hs0 : 0 ≤ TransitionToIdx a ((scanf3 line).2.1.toList.headD ' ') :=
        cIndexOf_nonneg _ _ hs
      have hslt : TransitionToIdx a ((scanf3 line).2.1.toList.headD ' ') <
          (a.transitions.length : Int) := cIndexOf_lt_length _ _ hs
      have hfr_nat : (StateToIdx a (scanf3 line).1).toNat < a.transitionTable.length := by
        rw [hlen]; omega
      have hrowmem : a.transitionTable.getD (StateToIdx a (scanf3 line).1).toNat [] ∈
          a.transitionTable := getD_mem _ _ _ hfr_nat
      have hsy_nat : (TransitionToIdx a ((scanf3 line).2.1.toList.headD ' ')).toNat <
          (a.transitionTable.getD (StateToIdx a (scanf3 line).1).toNat []).length := by
        rw [hrows _ hrowmem]; omega
      simp only [List.map_cons, List.nodup_cons, not_and_or] at hdup
      rcases hdup with hmem | hdup2
      · push_neg at hmem
        obtain ⟨w, hw, hwp⟩ := List.mem_map.mp hmem
        apply loadTransitions_occupied
        · intro t htmem
          rw [transResolves_setTable]
          exact hres t (List.mem_cons_of_mem _ htmem)
        · refine ⟨w, hw, ?_⟩
          rw [transPair_setTable, hwp]
          simp only [transPair]
          rw [tableGet_setTable_self _ _ _ _ hfr_nat hsy_nat]
          intro hcon
          rw [hcon] at ht
          exact ht rfl
      · apply ih
        · simp [setTable, List.length_set, hlen]
        · intro row hrow
          simp only [setTable] at hrow ⊢
          rcases List.mem_or_eq_of_mem_set hrow with hold | hnew
          · exact hrows row hold
          · rw [hnew, List.length_set]
            exact hrows _ hrowmem
        · intro t htmem
          rw [transResolves_setTable]
          exact hres t (List.mem_cons_of_mem _ htmem)
        · intro hcon
          apply hdup2
          have : (ts.map (transPair (setTable a (StateToIdx a (scanf3 line).1)
              (TransitionToIdx a ((scanf3 line).2.1.toList.headD ' '))
              (StateToIdx a (scanf3 line).2.2)))) = ts.map (transPair a) := by
            apply List.map_congr_left
            intro t _
            rw [transPair_setTable]
          rw [this] at hcon
          exact hcon

/-! ### Splitting a load into its header and its transition section -/

theorem loadAutomaton_append (a0 : Automaton) (l1 l2 l3 l4 : String) (ts : List String)
    (h : (LoadAutomaton a0 [l1, l2, l3, l4]).1 = none) :
    LoadAutomaton a0 (l1 :: l2 :: l3 :: l4 :: ts) =
      loadTransitions (LoadAutomaton a0 [l1, l2, l3, l4]).2 ts := by
  simp only [LoadAutomaton] at h ⊢
  split at h
  · simp at h
  · rename_i hidx
    split at h
    · simp at h
    · split at h
      · simp at h
      · rw [if_neg hidx, if_neg hidx]
        simp only [loadTransitions]

theorem loadAutomaton_header_table (a0 : Automaton) (l1 l2 l3 l4 : String)
    (h : (LoadAutomaton a0 [l1, l2, l3, l4]).1 = none) :
    (LoadAutomaton a0 [l1, l2, l3, l4]).2.transitionTable =
      List.replicate (LoadAutomaton a0 [l1, l2, l3, l4]).2.statesNames.length
        (List.replicate (LoadAutomaton a0 [l1, l2, l3, l4]).2.transitions.length (-1)) := by
  simp only [LoadAutomaton] at h ⊢
  split at h
  · simp at h
  · rename_i hidx
    split at h
    · simp at h
    · split at h
      · simp at h
      · rw [if_neg hidx]
        simp only [loadTransitions]

/-- C8: for every file whose header loads (stages one to four succeed) and
whose transition section resolves line by line, if two lines address the
same resolved `(from, symbol)` cell then `LoadAutomaton` fails and the
failure is the duplicate-transition exit of src/Simulator.c lines 244-252:
the earlier mapping is never overwritten and no automaton results. -/
theorem loadAutomaton_duplicate_transition (a0 : Automaton) (l1 l2 l3 l4 : String)
    (ts : List String)
    (hhead : (LoadAutomaton a0 [l1, l2, l3, l4]).1 = none)
    (hres : ∀ t ∈ ts, transResolves (LoadAutomaton a0 [l1, l2, l3, l4]).2 t)
    (hdup : ¬(ts.map (transPair (LoadAutomaton a0 [l1, l2, l3, l4]).2)).Nodup) :
    (LoadAutomaton a0 (l1 :: l2 :: l3 :: l4 :: ts)).1 =
      some LoadErr.duplicateTransition := by
  rw [loadAutomaton_append a0 l1 l2 l3 l4 ts hhead]
  apply loadTransitions_duplicate ts _ ?_ ?_ hres hdup
  · rw [loadAutomaton_header_table a0 l1 l2 l3 l4 hhead, List.length_replicate]
  · intro row hrow
    rw [loadAutomaton_header_table a0 l1 l2 l3 l4 hhead] at hrow
    rw [List.eq_of_mem_replicate hrow, List.length_replicate]

theorem loadAutomaton_duplicate_transition_witness :
    ((LoadAutomaton emptyAutomaton ["q0", "q0 q1", "a", "q1"]).1 = none ∧
      (∀ t ∈ ["q0 a q1", "q0 a q0"],
        transResolves (LoadAutomaton emptyAutomaton ["q0", "q0 q1", "a", "q1"]).2 t) ∧
      ¬((["q0 a q1", "q0 a q0"].map
          (transPair (LoadAutomaton emptyAutomaton ["q0", "q0 q1", "a", "q1"]).2)).Nodup)) ∧
    (LoadAutomaton emptyAutomaton
        ("q0" :: "q0 q1" :: "a" :: "q1" :: ["q0 a q1", "q0 a q0"])).1 =
      some LoadErr.duplicateTransition :=
  ⟨⟨by decide, by decide, by decide⟩,
   loadAutomaton_duplicate_transition emptyAutomaton "q0" "q0 q1" "a" "q1"
     ["q0 a q1", "q0 a q0"] (by decide) (by decide) (by decide)⟩

/-- C9: the state-declaration stage performs no duplicate check — a file
whose state line lists `q0` twice loads successfully, its state list keeping
both occurrences — and every resolution through `StateToIdx` (start state,
finish state, transition endpoints alike) returns the index of the first
occurrence of the name in declaration order, since the linear search of
src/Simulator.c lines 68-78 stops at the first match. -/
theorem loadAutomaton_duplicate_state_names :
    ((LoadAutomaton emptyAutomaton ["q0", "q0 q1 q0", "a b", "q1", "q0 a q1"]).1 = none ∧
      ¬(LoadAutomaton emptyAutomaton
          ["q0", "q0 q1 q0", "a b", "q1", "q0 a q1"]).2.statesNames.Nodup) ∧
    ∀ (a : Automaton) (name : String) (i : Nat) (hi : i < a.statesNames.length),
      a.statesNames.get ⟨i, hi⟩ = name →
      (∀ j (hj : j < a.statesNames.length), j < i → a.statesNames.get ⟨j, hj⟩ ≠ name) →
      StateToIdx a name = (i : Int) :=
  ⟨⟨by decide, by decide⟩,
   fun a name i hi hx hfirst => cIndexOf_first a.statesNames name i hi hx hfirst⟩

theorem loadAutomaton_duplicate_state_names_witness :
    (0 : Nat) <
      (LoadAutomaton emptyAutomaton
        ["q0", "q0 q1 q0", "a b", "q1", "q0 a q1"]).2.statesNames.length ∧
    StateToIdx (LoadAutomaton emptyAutomaton
        ["q0", "q0 q1 q0", "a b", "q1", "q0 a q1"]).2 "q0" = 0 :=
  ⟨by decide,
   loadAutomaton_duplicate_state_names.2 _ "q0" 0 (by decide) (by decide)
     (fun j hj hlt => absurd hlt (Nat.not_lt_zero j))⟩
